import Mathlib

/-!
Verification of the review-normalization and property-performance core of
the stay-review-hub repository: a shallow embedding of `src/lib/utils.ts`
(`calculateAverageRating`, `mapListingToPropertyId`,
`normalizeHostawayReview`) and of `src/lib/db.ts`
(`calculatePropertyPerformance` and the per-property computation inside
`getPropertiesWithReviews`), followed by theorems about the embedded code.

Modelling conventions:
- JavaScript numbers are exact rationals; `Math.round` is the round-half-up
  function `round : ℚ → ℤ` (`round x = ⌊x + 1/2⌋`), which agrees with
  JavaScript on every finite input.  Decimal literals such as `0.2` are read
  as exact rationals.  The float-only corner in which a zero `previousAvg`
  makes `diff / previousAvg` an infinity is outside the rational model (the
  rational convention `x / 0 = 0` applies there instead); no claim touches it.
- Slots that can dynamically hold `null`, `undefined` or `NaN` where the code
  tests for them are the type `JsNum`; slots the code only tests against
  `null`/`undefined` are `Option`.
- A JavaScript `throw` is `Except.error`; dates are milliseconds since the
  epoch (`Int`), and date-string parsing is an abstract parameter
  `parse : String → Option Int`, with `none` standing for `Invalid Date`.
-/

namespace StayReviewHub

/-- A JavaScript numeric slot: a number, `null`, `undefined` or `NaN`. -/
inductive JsNum where
  | null
  | undef
  | nan
  | num (q : ℚ)
  deriving DecidableEq

/-- Category rating entry (`HostawayReviewCategory` in `src/types/index.ts`);
the rating slot keeps the dynamic degenerate values the code filters out. -/
structure HostawayReviewCategory where
  category : String
  rating : JsNum
  deriving DecidableEq

/-- The filter `rating !== null && rating !== undefined && !isNaN(rating)`
from `calculateAverageRating`, as a partial projection to the kept value. -/
def validRating : JsNum → Option ℚ
  | JsNum.num q => some q
  | _ => none

/-- `Math.round(x * 10) / 10`, the 1-decimal rounding used throughout. -/
def round1 (q : ℚ) : ℚ := (round (q * 10) : ℤ) / 10

/-- `calculateAverageRating` (src/lib/utils.ts lines 24-38). -/
def calculateAverageRating (categories : List HostawayReviewCategory) :
    Option ℚ :=
  if categories.length = 0 then none
  else
    let validRatings : List ℚ :=
      (categories.map fun cat => cat.rating).filterMap validRating
    if validRatings.length = 0 then none
    else some (round1 (validRatings.sum / (validRatings.length : ℚ)))

/-- ASCII lower-casing, which is how `String.prototype.toLowerCase` acts on
the characters the slug character class `[a-z0-9]` can mention. -/
def jsLower (c : Char) : Char :=
  if 'A' ≤ c ∧ c ≤ 'Z' then Char.ofNat (c.toNat + 32) else c

/-- The character class `[a-z0-9]` of the slug regexes. -/
def isAlnum (c : Char) : Bool := ('a' ≤ c && c ≤ 'z') || ('0' ≤ c && c ≤ '9')

/-- The complement class `[^a-z0-9]`. -/
def nonAlnum (c : Char) : Bool := !isAlnum c

/-- The white-space set removed by `String.prototype.trim` (ECMAScript
WhiteSpace plus LineTerminator). -/
def jsWhitespace : List Char :=
  [' ', '\t', '\n', '\r', '\x0b', '\x0c', ' ', ' ', ' ',
   ' ', ' ', ' ', ' ', ' ', ' ', ' ',
   ' ', ' ', ' ', ' ', ' ', ' ', ' ',
   '　', '﻿']

/-- Membership in the `trim` white-space set. -/
def isJsSpace (c : Char) : Bool := decide (c ∈ jsWhitespace)

/-- The hyphen test used by the edge strip `/^-+|-+$/g`. -/
def isHyphen (c : Char) : Bool := c == '-'

/-- `replace(/[^a-z0-9]+/g, '-')`: every maximal run of characters outside
`[a-z0-9]` becomes a single hyphen. -/
def collapseRuns : List Char → List Char
  | [] => []
  | c :: rest =>
    let r := collapseRuns rest
    if isAlnum c then c :: r
    else if r.head? = some '-' then r else '-' :: r

/-- Drop the longest suffix whose characters satisfy `p` (the mirror of
`List.dropWhile`, used for the right-hand side of `trim` and of the edge
strip). -/
def dropTrail (p : Char → Bool) (l : List Char) : List Char :=
  (l.reverse.dropWhile p).reverse

/-- `String.prototype.trim`. -/
def jsTrim (l : List Char) : List Char :=
  dropTrail isJsSpace (l.dropWhile isJsSpace)

/-- `replace(/^-+|-+$/g, '')`: strip leading and trailing hyphens. -/
def stripEdgeHyphens (l : List Char) : List Char :=
  dropTrail isHyphen (l.dropWhile isHyphen)

/-- Body of the mapper: `listingName.toLowerCase().trim()
.replace(/[^a-z0-9]+/g, '-').replace(/^-+|-+$/g, '')`. -/
def slugChars (l : List Char) : List Char :=
  stripEdgeHyphens (collapseRuns (jsTrim (l.map jsLower)))

/-- `mapListingToPropertyId` (src/lib/utils.ts lines 53-63).  The falsy test
`!listingName` holds of a string exactly when it is empty, and the `throw` is
an `Except.error`. -/
def mapListingToPropertyId (listingName : String) : Except String String :=
  if listingName = "" then Except.error "Listing name is required"
  else Except.ok (String.mk (slugChars listingName.data))

/-- The mapper algorithm as the specification words it: lower-case, collapse
every maximal run outside `[a-z0-9]` to a single hyphen, strip edge hyphens.
The spec does not mention the source's intermediate `trim()`; this second
definition exists to be compared with `slugChars`. -/
def slugSpecChars (l : List Char) : List Char :=
  stripEdgeHyphens (collapseRuns (l.map jsLower))

/-- The `type` field values of a review. -/
inductive ReviewType where
  | hostToGuest
  | guestToHost
  deriving DecidableEq

/-- Raw review from the external API (`HostawayReview` in
`src/types/index.ts`).  `rating` is only ever tested against
`null`/`undefined`, hence an `Option`; `publicReview` and `guestName` are
`Option` so that the `||` defaults for absent values are statable. -/
structure HostawayReview where
  id : Int
  type : ReviewType
  status : String
  rating : Option ℚ
  publicReview : Option String
  reviewCategory : List HostawayReviewCategory
  submittedAt : String
  guestName : Option String
  listingName : String

/-- Canonical internal review (`Review` in `src/types/index.ts`). -/
structure Review where
  id : String
  propertyId : String
  guestName : String
  rating : Option ℚ
  publicReview : String
  channel : String
  reviewType : ReviewType
  status : String
  displayOnWebsite : Bool
  categories : List HostawayReviewCategory
  submittedAt : Int
  deriving DecidableEq

/-- First-occurrence-only replacement: JavaScript `replace(' ', 'T')` with a
string pattern substitutes only the first space. -/
def replaceFirstSpace : List Char → List Char
  | [] => []
  | c :: rest => if c = ' ' then 'T' :: rest else c :: replaceFirstSpace rest

/-- Date handling of the normalizer (src/lib/utils.ts lines 86-106): direct
parse, then the space-to-'T' retry, then the current time. -/
def parseSubmittedAt (parse : String → Option Int) (now : Int) (s : String) :
    Int :=
  match parse s with
  | some t => t
  | none =>
    match parse (String.mk (replaceFirstSpace s.data)) with
    | some t => t
    | none => now

/-- The `finalRating` computation of the normalizer (src/lib/utils.ts lines
78-84): the explicit rating when present, else the category average. -/
def resolveRating (raw : HostawayReview) : Option ℚ :=
  match raw.rating with
  | some q => some q
  | none => calculateAverageRating raw.reviewCategory

/-- `normalizeHostawayReview` (src/lib/utils.ts lines 78-121).  The one
`throw` escaping the function is the mapper's (date failures never throw), so
the listing-name dispatch is hoisted to the front; all remaining fields are
computed exactly as in the source. -/
def normalizeHostawayReview (parse : String → Option Int) (now : Int)
    (raw : HostawayReview) : Except String Review :=
  match mapListingToPropertyId raw.listingName with
  | Except.error e => Except.error e
  | Except.ok pid =>
    Except.ok
      { id := toString raw.id
        propertyId := pid
        guestName :=
          match raw.guestName with
          | some g => if g = "" then "Anonymous" else g
          | none => "Anonymous"
        rating := resolveRating raw
        publicReview := raw.publicReview.getD ""
        channel := "hostaway"
        reviewType := raw.type
        status := raw.status
        displayOnWebsite := false
        categories := raw.reviewCategory
        submittedAt := parseSubmittedAt parse now raw.submittedAt }

/-- JavaScript truthiness of a numeric slot: `undefined`, `NaN` and `0` are
falsy (so is `null`).  This drives the `if (!categoryRatings[cat.category])`
initialisation test in the aggregator. -/
def jsFalsy : JsNum → Bool
  | JsNum.null => true
  | JsNum.undef => true
  | JsNum.nan => true
  | JsNum.num q => q == 0

/-- JavaScript `+` on numeric slots: `null` coerces to `0`, while `undefined`
and `NaN` poison the sum. -/
def jsAdd : JsNum → JsNum → JsNum
  | JsNum.num x, JsNum.num y => JsNum.num (x + y)
  | JsNum.num x, JsNum.null => JsNum.num x
  | JsNum.null, JsNum.num y => JsNum.num y
  | JsNum.null, JsNum.null => JsNum.num 0
  | _, _ => JsNum.nan

/-- Property read on a plain JavaScript object modelled as an association
list in key-insertion order; a missing key reads as `undefined`. -/
def objGet (m : List (String × α)) (k : String) : Option α := m.lookup k

/-- Property write on a plain JavaScript object: an existing key keeps its
position, a new key is appended. -/
def objSet : List (String × α) → String → α → List (String × α)
  | [], k, v => [(k, v)]
  | (k₀, v₀) :: rest, k, v =>
    if k₀ = k then (k₀, v) :: rest else (k₀, v₀) :: objSet rest k v

/-- One `review.categories.forEach` step of the category accumulation
(src/lib/db.ts lines 460-471): the falsy test resets both accumulators, then
the rating is added and the count incremented. -/
def catStep (acc : List (String × JsNum) × List (String × Nat))
    (cat : HostawayReviewCategory) :
    List (String × JsNum) × List (String × Nat) :=
  let sums₀ := acc.1
  let counts₀ := acc.2
  let init := jsFalsy ((objGet sums₀ cat.category).getD JsNum.undef)
  let sums₁ := if init then objSet sums₀ cat.category (JsNum.num 0) else sums₀
  let counts₁ := if init then objSet counts₀ cat.category 0 else counts₀
  (objSet sums₁ cat.category
     (jsAdd ((objGet sums₁ cat.category).getD JsNum.undef) cat.rating),
   objSet counts₁ cat.category ((objGet counts₁ cat.category).getD 0 + 1))

/-- The two category accumulators after the double `forEach` over a
property's reviews. -/
def foldCats (reviews : List Review) :
    List (String × JsNum) × List (String × Nat) :=
  reviews.foldl (fun acc r => r.categories.foldl catStep acc) ([], [])

/-- `Math.round((x) * 10) / 10` on a numeric slot (`Math.round(NaN)` is
`NaN`; a `null` would round to `0`). -/
def jsRound1 : JsNum → JsNum
  | JsNum.num q => JsNum.num (round1 q)
  | JsNum.null => JsNum.num 0
  | _ => JsNum.nan

/-- Division of a numeric slot by a count.  The count is at least 1 whenever
the aggregator divides (each key present was counted when last written), so
the `n = 0` branch is unreachable; it is sent to `NaN`. -/
def jsDivNat (v : JsNum) (n : Nat) : JsNum :=
  match v with
  | JsNum.num q => if n = 0 then JsNum.nan else JsNum.num (q / (n : ℚ))
  | JsNum.null => if n = 0 then JsNum.nan else JsNum.num 0
  | _ => JsNum.nan

/-- The final `categoryRatings` object (src/lib/db.ts lines 473-477): each
accumulated sum replaced by the rounded per-category mean. -/
def categoryAverages (reviews : List Review) : List (String × JsNum) :=
  let acc := foldCats reviews
  acc.1.map fun kv =>
    (kv.1, jsRound1 (jsDivNat kv.2 ((objGet acc.2 kv.1).getD 0)))

/-- Thirty days in milliseconds (`30 * 24 * 60 * 60 * 1000`). -/
def thirtyDaysMs : Int := 30 * 24 * 60 * 60 * 1000

/-- Sixty days in milliseconds (`60 * 24 * 60 * 60 * 1000`). -/
def sixtyDaysMs : Int := 60 * 24 * 60 * 60 * 1000

/-- The `recentReviews` filter (src/lib/db.ts lines 484-486 and 252-254):
submitted in the last thirty days — with no upper bound — and non-null
rating. -/
def recentWindow (now : Int) (reviews : List Review) : List Review :=
  reviews.filter fun r =>
    decide (now - thirtyDaysMs ≤ r.submittedAt) && r.rating.isSome

/-- The `previousReviews` filter (src/lib/db.ts lines 487-489 and 255-257):
submitted between sixty and thirty days ago, non-null rating. -/
def previousWindow (now : Int) (reviews : List Review) : List Review :=
  reviews.filter fun r =>
    decide (now - sixtyDaysMs ≤ r.submittedAt) &&
      decide (r.submittedAt < now - thirtyDaysMs) && r.rating.isSome

/-- `reduce((sum, r) => sum + r.rating!, 0) / length` over a window whose
members all carry a rating. -/
def windowAverage (reviews : List Review) : ℚ :=
  (reviews.map fun r => r.rating.getD 0).sum / (reviews.length : ℚ)

/-- Trend direction values (the `'up' | 'down' | 'stable'` literals). -/
inductive TrendDirection where
  | up
  | down
  | stable
  deriving DecidableEq

/-- The `recentTrends` record of a performance summary. -/
structure RecentTrends where
  direction : TrendDirection
  percentage : Int
  deriving DecidableEq

/-- Trend block of `calculatePropertyPerformance` (src/lib/db.ts lines
479-508): initial value `stable`/`0`; with both windows inhabited the
percentage is `Math.round(Math.abs((diff / previousAvg) * 100))` and the
direction is three-way with a ±0.2 dead band (`diff > 0.2` up,
`diff < -0.2` down, otherwise the initial `stable`). -/
def computeTrend (now : Int) (reviews : List Review) : RecentTrends :=
  let recentReviews := recentWindow now reviews
  let previousReviews := previousWindow now reviews
  if 0 < recentReviews.length ∧ 0 < previousReviews.length then
    let recentAvg := windowAverage recentReviews
    let previousAvg := windowAverage previousReviews
    let diff := recentAvg - previousAvg
    { direction :=
        if 1 / 5 < diff then TrendDirection.up
        else if diff < -(1 / 5) then TrendDirection.down
        else TrendDirection.stable
      percentage := round |diff / previousAvg * 100| }
  else { direction := TrendDirection.stable, percentage := 0 }

/-- Trend block of the per-property computation inside
`getPropertiesWithReviews` (src/lib/db.ts lines 247-278): initial value
`up`/`0`; with both windows inhabited the same percentage, and a binary
direction — `diff >= 0` up, otherwise down. -/
def computeTrendBinary (now : Int) (reviews : List Review) : RecentTrends :=
  let recentReviews := recentWindow now reviews
  let previousReviews := previousWindow now reviews
  if 0 < recentReviews.length ∧ 0 < previousReviews.length then
    let recentAvg := windowAverage recentReviews
    let previousAvg := windowAverage previousReviews
    let diff := recentAvg - previousAvg
    { direction := if 0 ≤ diff then TrendDirection.up else TrendDirection.down
      percentage := round |diff / previousAvg * 100| }
  else { direction := TrendDirection.up, percentage := 0 }

/-- ASCII upper-casing of a character (`charAt(0).toUpperCase()`). -/
def jsUpper (c : Char) : Char :=
  if 'a' ≤ c ∧ c ≤ 'z' then Char.ofNat (c.toNat - 32) else c

/-- `word.charAt(0).toUpperCase() + word.slice(1)` (empty words pass
through, as `charAt(0)` and `slice(1)` of `""` are both `""`). -/
def capitalizeWord (w : String) : String :=
  match w.data with
  | [] => ""
  | c :: rest => String.mk (jsUpper c :: rest)

/-- De-slugify used for `propertyName` (src/lib/db.ts lines 440-444 and
304-309): split on hyphen, title-case each word, join with spaces. -/
def getPropertyNameFromId (propertyId : String) : String :=
  String.intercalate " " ((propertyId.splitOn "-").map capitalizeWord)

/-- One performance summary (`PropertyPerformance` in
`src/types/index.ts`). -/
structure PropertyPerformance where
  propertyId : String
  propertyName : String
  totalReviews : Nat
  averageRating : ℚ
  categoryRatings : List (String × JsNum)
  recentTrends : RecentTrends
  deriving DecidableEq

/-- The `ratingsWithValue` projection (src/lib/db.ts lines 447-449): the
non-null ratings of a group. -/
def groupRatings (group : List Review) : List ℚ :=
  group.filterMap fun r => r.rating

/-- The body of the per-group `map` in `calculatePropertyPerformance`
(src/lib/db.ts lines 439-521). -/
def perfOfGroup (now : Int) (propertyId : String) (group : List Review) :
    PropertyPerformance :=
  let ratingsWithValue := groupRatings group
  let averageRating : ℚ :=
    if 0 < ratingsWithValue.length then
      ratingsWithValue.sum / (ratingsWithValue.length : ℚ)
    else 0
  { propertyId := propertyId
    propertyName := getPropertyNameFromId propertyId
    totalReviews := group.length
    averageRating := round1 averageRating
    categoryRatings := categoryAverages group
    recentTrends := computeTrend now group }

/-- Key insertion for the grouping `Map`: an existing key is untouched, a
new key goes to the back (JavaScript `Map` insertion order). -/
def insertKey (ks : List String) (k : String) : List String :=
  if k ∈ ks then ks else ks ++ [k]

/-- The keys of the grouping `Map`, in insertion order: the distinct
`propertyId`s in order of first occurrence. -/
def mapKeys (reviews : List Review) : List String :=
  reviews.foldl (fun ks r => insertKey ks r.propertyId) []

/-- `calculatePropertyPerformance` (src/lib/db.ts lines 428-522).  The `Map`
grouping is rendered as one entry per first-occurrence key, whose group is
the in-order sublist of reviews carrying that `propertyId` — exactly the
list the push-based grouping builds under that key. -/
def calculatePropertyPerformance (now : Int) (reviews : List Review) :
    List PropertyPerformance :=
  (mapKeys reviews).map fun propertyId =>
    perfOfGroup now propertyId (reviews.filter fun r => r.propertyId == propertyId)

/-- A sample canonical review used to instantiate theorems on concrete
inputs. -/
def sampleReview : Review :=
  { id := "1"
    propertyId := "a"
    guestName := "G"
    rating := some 5
    publicReview := "ok"
    channel := "hostaway"
    reviewType := ReviewType.guestToHost
    status := "published"
    displayOnWebsite := false
    categories := []
    submittedAt := 0 }

/-- A sample raw review (explicit rating and categories absent) used to
instantiate the normalizer theorems. -/
def sampleRaw : HostawayReview :=
  { id := 7453
    type := ReviewType.guestToHost
    status := "published"
    rating := none
    publicReview := none
    reviewCategory := []
    submittedAt := "2025-08-21 22:45:14"
    guestName := none
    listingName := "a" }

/-- The canonical review the normalizer produces from `sampleRaw` under a
parse function that fails on everything and current time 3. -/
def sampleNormalized : Review :=
  { id := "7453"
    propertyId := "a"
    guestName := "Anonymous"
    rating := none
    publicReview := ""
    channel := "hostaway"
    reviewType := ReviewType.guestToHost
    status := "published"
    displayOnWebsite := false
    categories := []
    submittedAt := 3 }

/-- C3: `calculateAverageRating` drops the entries whose rating is `null`,
`undefined` or `NaN`; when no valid entry remains (in particular on the
empty input) it returns `none` — never `0` as a no-data sentinel; otherwise
it returns the arithmetic mean of the valid ratings rounded half-up on
(mean × 10) and divided back by 10.  As a total function it cannot throw.
The three documented examples follow as the trailing conjuncts. -/
theorem calculateAverageRating_spec :
    (∀ categories : List HostawayReviewCategory,
      ((categories.map fun cat => cat.rating).filterMap validRating = [] →
        calculateAverageRating categories = none) ∧
      ((categories.map fun cat => cat.rating).filterMap validRating ≠ [] →
        calculateAverageRating categories =
          some
            ((⌊((categories.map fun cat => cat.rating).filterMap
                    validRating).sum /
                  (((categories.map fun cat => cat.rating).filterMap
                      validRating).length : ℚ) * 10 + 1 / 2⌋ : ℚ) / 10))) ∧
    calculateAverageRating
        [⟨"cleanliness", JsNum.num 10⟩, ⟨"communication", JsNum.num 8⟩,
         ⟨"location", JsNum.num 9⟩] = some 9 ∧
    calculateAverageRating [] = none ∧
    calculateAverageRating [⟨"cleanliness", JsNum.num 7⟩] = some 7 := by
  refine ⟨fun categories => ⟨?_, ?_⟩, ?_, ?_, ?_⟩
  · intro hvalid
    by_cases hcat : categories.length = 0
    · simp [calculateAverageRating, hcat]
    · simp [calculateAverageRating, hcat, hvalid]
  · intro hvalid
    have hcat : ¬categories.length = 0 := by
      intro h0
      rw [List.length_eq_zero.mp h0] at hvalid
      simp at hvalid
    have hlen :
        ¬((categories.map fun cat => cat.rating).filterMap
            validRating).length = 0 := by
      intro h0
      exact hvalid (List.length_eq_zero.mp h0)
    simp only [calculateAverageRating, hcat, hlen, round1, round_eq,
      if_false, if_neg hcat, if_neg hlen]
  · norm_num [calculateAverageRating, validRating, round1, round_eq,
      List.filterMap_cons, List.filterMap_nil]
  · norm_num [calculateAverageRating]
  · norm_num [calculateAverageRating, validRating, round1, round_eq,
      List.filterMap_cons, List.filterMap_nil]

/-- Witness for C3: the no-valid-entry branch applied to the empty input. -/
theorem calculateAverageRating_spec_witness :
    calculateAverageRating [] = none :=
  (calculateAverageRating_spec.1 []).1 (by simp)

/-- C2 counterexample: on the three-space listing name the claim demands an
InvalidInput error, but the mapper does not raise — `"   "` is truthy, so
the only guard is passed and the function silently returns the empty
string. -/
theorem mapListing_whitespace_counterexample :
    mapListingToPropertyId "   " = Except.ok "" := by rfl

/-- C2 amended: the mapper raises its error exactly on the empty listing
name; every non-empty name — including one consisting entirely of
characters that strip to nothing — is mapped without error, a
strip-to-nothing name coming back as the (silently returned) empty
string. -/
theorem mapListing_error_iff_empty :
    (∀ s : String,
      (s = "" →
        mapListingToPropertyId s =
          Except.error "Listing name is required") ∧
      (s ≠ "" →
        mapListingToPropertyId s =
          Except.ok (String.mk (slugChars s.data)))) ∧
    mapListingToPropertyId "!!!" = Except.ok "" := by
  refine ⟨fun s => ⟨fun hs => ?_, fun hs => ?_⟩, rfl⟩
  · simp [mapListingToPropertyId, hs]
  · simp [mapListingToPropertyId, hs]

/-- Witness for the amended C2: the error branch at the empty string. -/
theorem mapListing_error_iff_empty_witness :
    mapListingToPropertyId "" = Except.error "Listing name is required" :=
  (mapListing_error_iff_empty.1 "").1 rfl

/-- C4: for every raw review the normalizer accepts, a present explicit
rating is taken verbatim (priority over any category-derived value); a null
explicit rating falls back to `calculateAverageRating` over the categories;
and with the explicit rating absent and the category list empty the
resulting rating is null, never zero. -/
theorem normalize_rating_resolution (parse : String → Option Int) (now : Int)
    (raw : HostawayReview) (rev : Review)
    (h : normalizeHostawayReview parse now raw = Except.ok rev) :
    (∀ q : ℚ, raw.rating = some q → rev.rating = some q) ∧
    (raw.rating = none →
      rev.rating = calculateAverageRating raw.reviewCategory) ∧
    (raw.rating = none → raw.reviewCategory = [] → rev.rating = none) := by
  unfold normalizeHostawayReview at h
  cases hm : mapListingToPropertyId raw.listingName with
  | error e => rw [hm] at h; cases h
  | ok pid =>
    rw [hm] at h
    cases h
    refine ⟨?_, ?_, ?_⟩
    · intro q hq
      simp [resolveRating, hq]
    · intro hq
      simp [resolveRating, hq]
    · intro hq hcat
      simp [resolveRating, hq, hcat, calculateAverageRating]

/-- Witness for C4: the both-absent branch on `sampleRaw` yields a null
rating. -/
theorem normalize_rating_resolution_witness :
    sampleNormalized.rating = none :=
  (normalize_rating_resolution (fun _ => none) 3 sampleRaw sampleNormalized
      rfl).2.2 rfl rfl

/-- C8: for every raw review the normalizer accepts, `displayOnWebsite` is
unconditionally false, `channel` is the fixed literal `"hostaway"`, the
guest name is the input name when non-empty and the literal `"Anonymous"`
when empty or missing (so it is never empty), and a missing `publicReview`
defaults to the empty string. -/
theorem normalize_defaults_spec (parse : String → Option Int) (now : Int)
    (raw : HostawayReview) (rev : Review)
    (h : normalizeHostawayReview parse now raw = Except.ok rev) :
    rev.displayOnWebsite = false ∧
    rev.channel = "hostaway" ∧
    (∀ g : String, raw.guestName = some g → g ≠ "" → rev.guestName = g) ∧
    (raw.guestName = none ∨ raw.guestName = some "" →
      rev.guestName = "Anonymous") ∧
    rev.guestName ≠ "" ∧
    (raw.publicReview = none → rev.publicReview = "") := by
  unfold normalizeHostawayReview at h
  cases hm : mapListingToPropertyId raw.listingName with
  | error e => rw [hm] at h; cases h
  | ok pid =>
    rw [hm] at h
    cases h
    refine ⟨rfl, rfl, ?_, ?_, ?_, ?_⟩
    · intro g hg hne
      simp [hg, hne]
    · rintro (hg | hg) <;> simp [hg]
    · cases hg : raw.guestName with
      | none => simp [hg]
      | some g =>
        by_cases hge : g = "" <;> simp [hg, hge]
    · intro hp
      simp [hp]

/-- Witness for C8: defaults on the sample raw review. -/
theorem normalize_defaults_spec_witness :
    sampleNormalized.displayOnWebsite = false ∧
    sampleNormalized.guestName = "Anonymous" :=
  ⟨(normalize_defaults_spec (fun _ => none) 3 sampleRaw sampleNormalized
      rfl).1,
   (normalize_defaults_spec (fun _ => none) 3 sampleRaw sampleNormalized
      rfl).2.2.2.1 (Or.inl rfl)⟩

/-- C9: for every raw review with a valid listing name the normalizer
succeeds whatever the date text does, its `submittedAt` being the value of
the three-stage date handling: the direct parse when it succeeds, else the
parse of the text with the first space replaced by 'T', else the current
time — so the produced date is always a value and no date error reaches the
caller. -/
theorem normalize_date_fallback_spec (parse : String → Option Int) (now : Int)
    (raw : HostawayReview) (hname : raw.listingName ≠ "") :
    (∃ rev : Review, normalizeHostawayReview parse now raw = Except.ok rev ∧
      rev.submittedAt = parseSubmittedAt parse now raw.submittedAt) ∧
    (∀ t : Int, parse raw.submittedAt = some t →
      parseSubmittedAt parse now raw.submittedAt = t) ∧
    (∀ t : Int, parse raw.submittedAt = none →
      parse (String.mk (replaceFirstSpace raw.submittedAt.data)) = some t →
      parseSubmittedAt parse now raw.submittedAt = t) ∧
    (parse raw.submittedAt = none →
      parse (String.mk (replaceFirstSpace raw.submittedAt.data)) = none →
      parseSubmittedAt parse now raw.submittedAt = now) := by
  have hm : mapListingToPropertyId raw.listingName =
      Except.ok (String.mk (slugChars raw.listingName.data)) := by
    simp [mapListingToPropertyId, hname]
  refine ⟨?_, ?_, ?_, ?_⟩
  · unfold normalizeHostawayReview
    rw [hm]
    exact ⟨_, rfl, rfl⟩
  · intro t ht
    simp [parseSubmittedAt, ht]
  · intro t h₁ h₂
    simp [parseSubmittedAt, h₁, h₂]
  · intro h₁ h₂
    simp [parseSubmittedAt, h₁, h₂]

/-- Witness for C9: with a parse that fails on everything, the sample raw
review's date resolves to the supplied current time. -/
theorem normalize_date_fallback_spec_witness :
    parseSubmittedAt (fun _ => none) 3 sampleRaw.submittedAt = 3 :=
  (normalize_date_fallback_spec (fun _ => none) 3 sampleRaw
      (by decide)).2.2.2 rfl rfl

theorem mem_insertKey {ks : List String} {k x : String} :
    x ∈ insertKey ks k ↔ x ∈ ks ∨ x = k := by
  unfold insertKey
  by_cases h : k ∈ ks
  · simp only [if_pos h]
    exact ⟨Or.inl, fun hx => hx.elim id fun he => he ▸ h⟩
  · simp [if_neg h]

theorem nodup_insertKey {ks : List String} (k : String) (h : ks.Nodup) :
    (insertKey ks k).Nodup := by
  unfold insertKey
  by_cases hk : k ∈ ks
  · simpa [if_pos hk] using h
  · simp [if_neg hk, List.nodup_append, h, hk]

theorem mapKeysAux_nodup :
    ∀ (l : List Review) (acc : List String), acc.Nodup →
      (l.foldl (fun ks r => insertKey ks r.propertyId) acc).Nodup := by
  intro l
  induction l with
  | nil => intro acc h; simpa using h
  | cons r t ih =>
    intro acc h
    exact ih _ (nodup_insertKey _ h)

theorem mem_mapKeysAux_of_mem_acc :
    ∀ (l : List Review) (acc : List String) (x : String), x ∈ acc →
      x ∈ l.foldl (fun ks r => insertKey ks r.propertyId) acc := by
  intro l
  induction l with
  | nil => intro acc x h; simpa using h
  | cons r t ih =>
    intro acc x h
    exact ih _ _ (mem_insertKey.mpr (Or.inl h))

theorem mem_mapKeysAux_of_mem :
    ∀ (l : List Review) (acc : List String) (r : Review), r ∈ l →
      r.propertyId ∈ l.foldl (fun ks s => insertKey ks s.propertyId) acc := by
  intro l
  induction l with
  | nil => intro acc r h; cases h
  | cons s t ih =>
    intro acc r h
    rcases List.mem_cons.mp h with h | h
    · subst h
      exact mem_mapKeysAux_of_mem_acc t _ _ (mem_insertKey.mpr (Or.inr rfl))
    · exact ih _ _ h

theorem mem_mapKeysAux_sound :
    ∀ (l : List Review) (acc : List String) (x : String),
      x ∈ l.foldl (fun ks r => insertKey ks r.propertyId) acc →
      x ∈ acc ∨ ∃ r ∈ l, r.propertyId = x := by
  intro l
  induction l with
  | nil => intro acc x h; exact Or.inl (by simpa using h)
  | cons s t ih =>
    intro acc x h
    rcases ih _ _ h with h | ⟨r, hr, hx⟩
    · rcases mem_insertKey.mp h with h | h
      · exact Or.inl h
      · exact Or.inr ⟨s, by simp, h.symm⟩
    · exact Or.inr ⟨r, by simp [hr], hx⟩

theorem mapKeys_nodup (reviews : List Review) : (mapKeys reviews).Nodup :=
  mapKeysAux_nodup reviews [] (by simp)

theorem propertyId_mem_mapKeys {reviews : List Review} {r : Review}
    (h : r ∈ reviews) : r.propertyId ∈ mapKeys reviews :=
  mem_mapKeysAux_of_mem reviews [] r h

theorem mapKeys_sound {reviews : List Review} {x : String}
    (h : x ∈ mapKeys reviews) : ∃ r ∈ reviews, r.propertyId = x := by
  rcases mem_mapKeysAux_sound reviews [] x h with h | h
  · simp at h
  · exact h

theorem calc_map_propertyId (now : Int) (reviews : List Review) :
    (calculatePropertyPerformance now reviews).map (fun p => p.propertyId) =
      mapKeys reviews := by
  unfold calculatePropertyPerformance
  rw [List.map_map]
  refine (List.map_congr_left fun a _ => rfl).trans (List.map_id _)

/-- Every entry of the aggregator's output is the per-group computation over
the sublist of input reviews carrying the entry's own `propertyId`. -/
theorem mem_calc_eq (now : Int) (reviews : List Review)
    (p : PropertyPerformance)
    (hp : p ∈ calculatePropertyPerformance now reviews) :
    p = perfOfGroup now p.propertyId
        (reviews.filter fun r => r.propertyId == p.propertyId) := by
  unfold calculatePropertyPerformance at hp
  rcases List.mem_map.mp hp with ⟨k, hk, rfl⟩
  rfl

theorem sum_group_lengths :
    ∀ (keys : List String) (l : List Review), keys.Nodup →
      (∀ r ∈ l, r.propertyId ∈ keys) →
      (keys.map fun k => (l.filter fun r => r.propertyId == k).length).sum =
        l.length := by
  intro keys
  induction keys with
  | nil =>
    intro l _ hmem
    cases l with
    | nil => simp
    | cons r t => exact absurd (hmem r (by simp)) (by simp)
  | cons k ks ih =>
    intro l hnd hmem
    have hknot : k ∉ ks := (List.nodup_cons.mp hnd).1
    have hnd' : ks.Nodup := (List.nodup_cons.mp hnd).2
    have hsplit :
        (l.filter fun r => r.propertyId == k).length +
          (l.filter fun r => !(r.propertyId == k)).length = l.length := by
      have h := List.length_eq_length_filter_add (l := l)
        (fun r => r.propertyId == k)
      omega
    have hrest :
        ∀ k' ∈ ks,
          (l.filter fun r => r.propertyId == k') =
            ((l.filter fun r => !(r.propertyId == k)).filter
              fun r => r.propertyId == k') := by
      intro k' hk'
      rw [List.filter_filter]
      refine (List.filter_congr ?_)
      intro r _
      by_cases hrk : r.propertyId = k'
      · have hkk : ¬k' = k := fun he => hknot (he ▸ hk')
        simp [hrk, hkk]
      · simp [hrk]
    have hmem' : ∀ r ∈ l.filter fun r => !(r.propertyId == k),
        r.propertyId ∈ ks := by
      intro r hr
      have hrl := List.mem_filter.mp hr
      rcases List.mem_cons.mp (hmem r hrl.1) with h | h
      · exfalso
        have := hrl.2
        simp [h] at this
      · exact h
    have hinner :
        (ks.map fun k' => (l.filter fun r => r.propertyId == k').length) =
          ks.map fun k' =>
            ((l.filter fun r => !(r.propertyId == k)).filter
              fun r => r.propertyId == k').length := by
      refine List.map_congr_left ?_
      intro k' hk'
      rw [hrest k' hk']
    rw [List.map_cons, List.sum_cons, hinner, ih _ hnd' hmem']
    omega

/-- C6: the aggregator yields exactly one summary per distinct `propertyId`
of the input — the output ids are duplicate-free, every input review's id is
among them, every output id comes from some input review — the output
`totalReviews` counts sum to the input length, and the empty input yields
the empty output. -/
theorem aggregator_grouping_roundtrip :
    (∀ (now : Int) (reviews : List Review),
      ((calculatePropertyPerformance now reviews).map fun p =>
          p.propertyId).Nodup ∧
      (∀ r ∈ reviews,
        r.propertyId ∈
          (calculatePropertyPerformance now reviews).map fun p =>
            p.propertyId) ∧
      (∀ p ∈ calculatePropertyPerformance now reviews,
        ∃ r ∈ reviews, r.propertyId = p.propertyId) ∧
      ((calculatePropertyPerformance now reviews).map fun p =>
          p.totalReviews).sum = reviews.length) ∧
    (∀ now : Int, calculatePropertyPerformance now [] = []) := by
  refine ⟨fun now reviews => ⟨?_, ?_, ?_, ?_⟩, fun now => rfl⟩
  · rw [calc_map_propertyId]
    exact mapKeys_nodup reviews
  · intro r hr
    rw [calc_map_propertyId]
    exact propertyId_mem_mapKeys hr
  · intro p hp
    unfold calculatePropertyPerformance at hp
    rcases List.mem_map.mp hp with ⟨k, hk, rfl⟩
    exact mapKeys_sound hk
  · unfold calculatePropertyPerformance
    rw [List.map_map]
    have hcomp : ((fun p => p.totalReviews) ∘ fun k =>
        perfOfGroup now k (reviews.filter fun r => r.propertyId == k)) =
        fun k => (reviews.filter fun r => r.propertyId == k).length := rfl
    rw [hcomp]
    exact sum_group_lengths (mapKeys reviews) reviews (mapKeys_nodup reviews)
      fun r hr => propertyId_mem_mapKeys hr

/-- Witness for C6: the count round-trip on a one-review input. -/
theorem aggregator_grouping_roundtrip_witness :
    ((calculatePropertyPerformance 0 [sampleReview]).map fun p =>
        p.totalReviews).sum = 1 :=
  (aggregator_grouping_roundtrip.1 0 [sampleReview]).2.2.2

theorem perfOfGroup_averageRating (now : Int) (pid : String)
    (g : List Review) :
    (groupRatings g ≠ [] →
      (perfOfGroup now pid g).averageRating =
        round1 ((groupRatings g).sum / ((groupRatings g).length : ℚ))) ∧
    (groupRatings g = [] → (perfOfGroup now pid g).averageRating = 0) := by
  constructor
  · intro hne
    have hlen : 0 < (groupRatings g).length := List.length_pos.mpr hne
    simp [perfOfGroup, hlen]
  · intro hnil
    norm_num [perfOfGroup, hnil, round1]

theorem foldCatsAux_of_no_categories :
    ∀ (l : List Review)
      (acc : List (String × JsNum) × List (String × Nat)),
      (∀ r ∈ l, r.categories = []) →
      l.foldl (fun acc r => r.categories.foldl catStep acc) acc = acc := by
  intro l
  induction l with
  | nil => intro acc _; rfl
  | cons r t ih =>
    intro acc h
    have hr : r.categories = [] := h r (by simp)
    simp only [List.foldl_cons, hr, List.foldl_nil]
    exact ih _ fun s hs => h s (by simp [hs])

theorem perfOfGroup_categoryRatings_nil (now : Int) (pid : String)
    (g : List Review) (h : ∀ r ∈ g, r.categories = []) :
    (perfOfGroup now pid g).categoryRatings = [] := by
  have hfold : foldCats g = ([], []) := foldCatsAux_of_no_categories g _ h
  simp [perfOfGroup, categoryAverages, hfold]

/-- C5: for every output group, `averageRating` is the mean of the group's
non-null ratings rounded to one decimal, `0` — not null — when the group has
no non-null rating; and a group whose reviews all have a null rating and no
categories yields `averageRating = 0` together with an empty
`categoryRatings` object. -/
theorem aggregator_averageRating_spec (now : Int) (reviews : List Review)
    (p : PropertyPerformance)
    (hp : p ∈ calculatePropertyPerformance now reviews) :
    (groupRatings (reviews.filter fun r => r.propertyId == p.propertyId) ≠
        [] →
      p.averageRating =
        round1
          ((groupRatings (reviews.filter fun r =>
              r.propertyId == p.propertyId)).sum /
            ((groupRatings (reviews.filter fun r =>
                r.propertyId == p.propertyId)).length : ℚ))) ∧
    (groupRatings (reviews.filter fun r => r.propertyId == p.propertyId) =
        [] →
      p.averageRating = 0) ∧
    ((∀ r ∈ reviews.filter fun r => r.propertyId == p.propertyId,
        r.rating = none ∧ r.categories = []) →
      p.averageRating = 0 ∧ p.categoryRatings = []) := by
  have hpe := mem_calc_eq now reviews p hp
  refine ⟨?_, ?_, ?_⟩
  · intro hne
    have h := (perfOfGroup_averageRating now p.propertyId
      (reviews.filter fun r => r.propertyId == p.propertyId)).1 hne
    rwa [← hpe] at h
  · intro hnil
    have h := (perfOfGroup_averageRating now p.propertyId
      (reviews.filter fun r => r.propertyId == p.propertyId)).2 hnil
    rwa [← hpe] at h
  · intro hall
    have hnil :
        groupRatings (reviews.filter fun r =>
          r.propertyId == p.propertyId) = [] := by
      simp only [groupRatings, List.filterMap_eq_nil_iff]
      intro r hr
      simp [(hall r hr).1]
    constructor
    · have h := (perfOfGroup_averageRating now p.propertyId
        (reviews.filter fun r => r.propertyId == p.propertyId)).2 hnil
      rwa [← hpe] at h
    · have h := perfOfGroup_categoryRatings_nil now p.propertyId
        (reviews.filter fun r => r.propertyId == p.propertyId)
        fun r hr => (hall r hr).2
      rwa [← hpe] at h

theorem perfOfGroup_propertyId (now : Int) (pid : String)
    (g : List Review) : (perfOfGroup now pid g).propertyId = pid := rfl

/-- Witness for C5: the one-review group averages to its own rating. -/
theorem aggregator_averageRating_spec_witness :
    (perfOfGroup 0 "a"
        ([sampleReview].filter fun r => r.propertyId == "a")).averageRating =
      5 := by
  have hp :
      perfOfGroup 0 "a" ([sampleReview].filter fun r => r.propertyId == "a") ∈
        calculatePropertyPerformance 0 [sampleReview] := by
    unfold calculatePropertyPerformance
    have hkeys : mapKeys [sampleReview] = ["a"] := rfl
    rw [hkeys, List.map_singleton]
    exact List.mem_singleton_self _
  have h := (aggregator_averageRating_spec 0 [sampleReview] _ hp).1
  rw [perfOfGroup_propertyId] at h
  have h₅ := h (by simp [groupRatings, sampleReview])
  rw [h₅]
  norm_num [groupRatings, sampleReview, round1, round_eq,
    List.filterMap_cons, List.filterMap_nil]

/-- C10: in the trend computation the recent window has no upper time bound:
every group member with a non-null rating submitted strictly after `now` is
counted in the recent window, while the previous window is bounded on both
sides — membership there requires both the sixty-day lower bound and the
thirty-day upper bound, so a future-dated review is excluded from it. -/
theorem recentWindow_unbounded_above (now : Int) (reviews : List Review)
    (r : Review) (hmem : r ∈ reviews) (hrat : r.rating.isSome = true)
    (hfut : now < r.submittedAt) :
    r ∈ recentWindow now reviews ∧
    r ∉ previousWindow now reviews ∧
    (∀ s : Review, s ∈ previousWindow now reviews ↔
      s ∈ reviews ∧ now - sixtyDaysMs ≤ s.submittedAt ∧
        s.submittedAt < now - thirtyDaysMs ∧ s.rating.isSome = true) := by
  have h30 : (0 : Int) < thirtyDaysMs := by norm_num [thirtyDaysMs]
  have hprev : ∀ s : Review, s ∈ previousWindow now reviews ↔
      s ∈ reviews ∧ now - sixtyDaysMs ≤ s.submittedAt ∧
        s.submittedAt < now - thirtyDaysMs ∧ s.rating.isSome = true := by
    intro s
    constructor
    · intro hs
      have h₁ := (List.mem_filter.mp hs).1
      have h₂ := (List.mem_filter.mp hs).2
      simp only [Bool.and_eq_true, decide_eq_true_eq] at h₂
      exact ⟨h₁, h₂.1.1, h₂.1.2, h₂.2⟩
    · rintro ⟨h₁, h₂, h₃, h₄⟩
      refine List.mem_filter.mpr ⟨h₁, ?_⟩
      simp only [Bool.and_eq_true, decide_eq_true_eq]
      exact ⟨⟨h₂, h₃⟩, h₄⟩
  refine ⟨?_, ?_, hprev⟩
  · refine List.mem_filter.mpr ⟨hmem, ?_⟩
    simp only [Bool.and_eq_true, decide_eq_true_eq]
    exact ⟨by omega, hrat⟩
  · intro hin
    obtain ⟨-, -, hlt, -⟩ := (hprev r).mp hin
    omega

/-- A sample review dated strictly after the aggregation time 0. -/
def futureReview : Review := { sampleReview with submittedAt := 5 }

/-- Witness for C10: the future-dated review lands in the recent window. -/
theorem recentWindow_unbounded_above_witness :
    futureReview ∈ recentWindow 0 [futureReview] :=
  (recentWindow_unbounded_above 0 [futureReview] futureReview (by simp)
      rfl (by decide)).1

/-- C1 counterexample: a single review dated at the aggregation instant has
an empty previous window; the claim demands trend direction `up` there, but
the aggregator leaves its initial `stable`. -/
theorem trend_default_counterexample :
    ((calculatePropertyPerformance 0 [sampleReview]).map fun p =>
        p.recentTrends) =
      [{ direction := TrendDirection.stable, percentage := 0 }] ∧
    TrendDirection.stable ≠ TrendDirection.up := by
  constructor
  · norm_num [calculatePropertyPerformance, mapKeys, insertKey, perfOfGroup,
      computeTrend, recentWindow, previousWindow, thirtyDaysMs, sixtyDaysMs,
      sampleReview]
  · decide

/-- C1 amended: each aggregator output's `recentTrends` is the
`computeTrend` of its group, which defaults to `stable`/`0` when either
window is empty and otherwise computes the claimed percentage
`round |diff / previousAvg * 100|` with a three-way ±0.2 dead-band
direction — `up` only above `0.2`, `down` only below `-0.2`, else `stable`.
The claimed shape — default `up`/`0` and the binary `diff ≥ 0 → up` rule
with the same percentage — is the one implemented by the per-property
computation of `getPropertiesWithReviews` (`computeTrendBinary`). -/
theorem trend_semantics :
    (∀ (now : Int) (reviews : List Review) (p : PropertyPerformance),
      p ∈ calculatePropertyPerformance now reviews →
      p.recentTrends =
        computeTrend now
          (reviews.filter fun r => r.propertyId == p.propertyId)) ∧
    (∀ (now : Int) (g : List Review),
      (recentWindow now g = [] ∨ previousWindow now g = [] →
        computeTrend now g = ⟨TrendDirection.stable, 0⟩ ∧
        computeTrendBinary now g = ⟨TrendDirection.up, 0⟩) ∧
      (recentWindow now g ≠ [] → previousWindow now g ≠ [] →
        (computeTrend now g).percentage =
          round |(windowAverage (recentWindow now g) -
              windowAverage (previousWindow now g)) /
            windowAverage (previousWindow now g) * 100| ∧
        (computeTrendBinary now g).percentage =
          (computeTrend now g).percentage ∧
        (computeTrend now g).direction =
          (if 1 / 5 < windowAverage (recentWindow now g) -
              windowAverage (previousWindow now g) then TrendDirection.up
           else if windowAverage (recentWindow now g) -
              windowAverage (previousWindow now g) < -(1 / 5) then
             TrendDirection.down
           else TrendDirection.stable) ∧
        (computeTrendBinary now g).direction =
          (if 0 ≤ windowAverage (recentWindow now g) -
              windowAverage (previousWindow now g) then TrendDirection.up
           else TrendDirection.down))) := by
  constructor
  · intro now reviews p hp
    exact congrArg PropertyPerformance.recentTrends (mem_calc_eq now reviews p hp)
  · intro now g
    constructor
    · rintro (h | h) <;>
        exact ⟨by simp [computeTrend, h], by simp [computeTrendBinary, h]⟩
    · intro h₁ h₂
      have l₁ : 0 < (recentWindow now g).length := List.length_pos.mpr h₁
      have l₂ : 0 < (previousWindow now g).length := List.length_pos.mpr h₂
      refine ⟨?_, ?_, ?_, ?_⟩ <;>
        simp [computeTrend, computeTrendBinary, l₁, l₂]

/-- Witness for the amended C1: the empty-window default of the binary
path. -/
theorem trend_semantics_witness :
    computeTrendBinary 0 ([] : List Review) = ⟨TrendDirection.up, 0⟩ :=
  ((trend_semantics.2 0 []).1 (Or.inl rfl)).2

theorem isAlnum_eq_false_of_isJsSpace {c : Char} (h : isJsSpace c = true) :
    isAlnum c = false := by
  have hc : c ∈ jsWhitespace := of_decide_eq_true h
  fin_cases hc <;> decide

theorem isJsSpace_eq_false_of_isAlnum {c : Char} (h : isAlnum c = true) :
    isJsSpace c = false := by
  cases hw : isJsSpace c with
  | false => rfl
  | true =>
    rw [isAlnum_eq_false_of_isJsSpace hw] at h
    simp at h

theorem ne_hyphen_of_isAlnum {c : Char} (h : isAlnum c = true) : c ≠ '-' :=
  fun he => absurd (he ▸ h) (by decide)

theorem collapseRuns_cons_eq (c : Char) (l : List Char) :
    collapseRuns (c :: l) =
      if isAlnum c then c :: collapseRuns l
      else if (collapseRuns l).head? = some '-' then collapseRuns l
      else '-' :: collapseRuns l := rfl

theorem collapseRuns_cons_alnum {c : Char} (h : isAlnum c = true)
    (l : List Char) : collapseRuns (c :: l) = c :: collapseRuns l := by
  rw [collapseRuns_cons_eq, if_pos h]

theorem collapseRuns_cons_nonalnum :
    ∀ (l : List Char) (c : Char), isAlnum c = false →
      collapseRuns (c :: l) = '-' :: collapseRuns (l.dropWhile nonAlnum) := by
  intro l
  induction l with
  | nil =>
    intro c h
    rw [collapseRuns_cons_eq]
    simp [h, collapseRuns]
  | cons d t ih =>
    intro c h
    rw [collapseRuns_cons_eq, List.dropWhile_cons]
    cases hd : isAlnum d with
    | true =>
      have hrec := collapseRuns_cons_alnum hd t
      have hne : d ≠ '-' := ne_hyphen_of_isAlnum hd
      simp [h, nonAlnum, hd, hrec, hne]
    | false =>
      have hrec := ih d hd
      simp [h, nonAlnum, hd, hrec]

theorem dropWhile_hyphen_collapse_dropWhile_nonAlnum (l : List Char) :
    (collapseRuns (l.dropWhile nonAlnum)).dropWhile isHyphen =
      (collapseRuns l).dropWhile isHyphen := by
  cases l with
  | nil => rfl
  | cons c t =>
    rw [List.dropWhile_cons]
    cases hc : isAlnum c with
    | true => simp [nonAlnum, hc]
    | false =>
      simp only [nonAlnum, hc, Bool.not_false, if_true]
      rw [collapseRuns_cons_nonalnum t c hc, List.dropWhile_cons]
      simp [isHyphen]

theorem dropWhile_hyphen_collapse_dropWhile_space (l : List Char) :
    (collapseRuns (l.dropWhile isJsSpace)).dropWhile isHyphen =
      (collapseRuns l).dropWhile isHyphen := by
  induction l with
  | nil => rfl
  | cons c t ih =>
    rw [List.dropWhile_cons]
    cases hw : isJsSpace c with
    | false => simp
    | true =>
      have ha : isAlnum c = false := isAlnum_eq_false_of_isJsSpace hw
      simp only [if_true]
      rw [ih, ← dropWhile_hyphen_collapse_dropWhile_nonAlnum t]
      rw [collapseRuns_cons_nonalnum t c ha, List.dropWhile_cons]
      simp [isHyphen]

theorem dropWhile_append_ne (p : Char → Bool) (l₁ l₂ : List Char)
    (h : l₁.dropWhile p ≠ []) :
    (l₁ ++ l₂).dropWhile p = l₁.dropWhile p ++ l₂ := by
  rw [List.dropWhile_append]
  simp [List.isEmpty_iff, h]

theorem dropWhile_append_nil (p : Char → Bool) (l₁ l₂ : List Char)
    (h : l₁.dropWhile p = []) :
    (l₁ ++ l₂).dropWhile p = l₂.dropWhile p := by
  rw [List.dropWhile_append]
  simp [List.isEmpty_iff, h]

theorem dropTrail_eq_nil_iff (p : Char → Bool) (l : List Char) :
    dropTrail p l = [] ↔ ∀ c ∈ l, p c = true := by
  unfold dropTrail
  rw [List.reverse_eq_nil_iff, List.dropWhile_eq_nil_iff]
  constructor
  · intro h c hc
    exact h c (List.mem_reverse.mpr hc)
  · intro h c hc
    exact h c (List.mem_reverse.mp hc)

theorem dropTrail_cons_of_neg (p : Char → Bool) {c : Char}
    (hc : p c = false) (l : List Char) :
    dropTrail p (c :: l) = c :: dropTrail p l := by
  unfold dropTrail
  rw [List.reverse_cons]
  by_cases h : l.reverse.dropWhile p = []
  · rw [dropWhile_append_nil _ _ _ h, h]
    simp [List.dropWhile_cons, hc]
  · rw [dropWhile_append_ne _ _ _ h, List.reverse_append]
    rfl

theorem dropTrail_cons_of_nil (p : Char → Bool) {c : Char} {l : List Char}
    (hc : p c = true) (h : dropTrail p l = []) :
    dropTrail p (c :: l) = [] := by
  have h' : l.reverse.dropWhile p = [] := by
    unfold dropTrail at h
    exact List.reverse_eq_nil_iff.mp h
  unfold dropTrail
  rw [List.reverse_cons, dropWhile_append_nil _ _ _ h']
  simp [List.dropWhile_cons, hc]

theorem dropTrail_cons_of_ne (p : Char → Bool) (c : Char) {l : List Char}
    (h : dropTrail p l ≠ []) :
    dropTrail p (c :: l) = c :: dropTrail p l := by
  have h' : l.reverse.dropWhile p ≠ [] := by
    intro hh
    refine h ?_
    unfold dropTrail
    rw [hh]
    rfl
  unfold dropTrail
  rw [List.reverse_cons, dropWhile_append_ne _ _ _ h', List.reverse_append]
  rfl

theorem dropTrail_cons_congr (p : Char → Bool) (c : Char)
    {A B : List Char} (h : dropTrail p A = dropTrail p B) :
    dropTrail p (c :: A) = dropTrail p (c :: B) := by
  by_cases hA : dropTrail p A = []
  · have hB : dropTrail p B = [] := by rw [← h]; exact hA
    cases hc : p c with
    | false => rw [dropTrail_cons_of_neg p hc, dropTrail_cons_of_neg p hc, hA, hB]
    | true => rw [dropTrail_cons_of_nil p hc hA, dropTrail_cons_of_nil p hc hB]
  · have hB : dropTrail p B ≠ [] := by rw [← h]; exact hA
    rw [dropTrail_cons_of_ne p c hA, dropTrail_cons_of_ne p c hB, h]

theorem mem_of_dropTrail {p : Char → Bool} {l : List Char} {x : Char}
    (h : x ∈ dropTrail p l) : x ∈ l := by
  unfold dropTrail at h
  rw [List.mem_reverse] at h
  exact List.mem_reverse.mp ((List.dropWhile_sublist p).mem h)

theorem dropTrail_append (p : Char → Bool) (l₁ l₂ : List Char)
    (h : dropTrail p l₂ ≠ []) :
    dropTrail p (l₁ ++ l₂) = l₁ ++ dropTrail p l₂ := by
  have h' : l₂.reverse.dropWhile p ≠ [] := by
    intro hh
    refine h ?_
    unfold dropTrail
    rw [hh]
    rfl
  unfold dropTrail
  rw [List.reverse_append, dropWhile_append_ne _ _ _ h', List.reverse_append,
    List.reverse_reverse]

theorem dropWhile_dropTrail (p : Char → Bool) (l : List Char) :
    (dropTrail p l).dropWhile p = dropTrail p (l.dropWhile p) := by
  induction l with
  | nil => rfl
  | cons c t ih =>
    cases hc : p c with
    | false =>
      rw [List.dropWhile_cons, hc]
      simp only [Bool.false_eq_true, if_false]
      rw [dropTrail_cons_of_neg p hc, List.dropWhile_cons, hc]
      simp
    | true =>
      rw [List.dropWhile_cons, hc]
      simp only [if_true]
      by_cases hA : dropTrail p t = []
      · rw [dropTrail_cons_of_nil p hc hA, ← ih, hA]
      · rw [dropTrail_cons_of_ne p c hA, List.dropWhile_cons, hc]
        simp only [if_true]
        exact ih

theorem dropTrail_collapse_trim :
    ∀ (n : Nat) (l : List Char), l.length ≤ n →
      dropTrail isHyphen (collapseRuns (dropTrail isJsSpace l)) =
        dropTrail isHyphen (collapseRuns l) := by
  intro n
  induction n with
  | zero =>
    intro l hl
    have hnil : l = [] := List.length_eq_zero.mp (Nat.le_zero.mp hl)
    subst hnil
    rfl
  | succ n ih =>
    intro l hl
    cases l with
    | nil => rfl
    | cons c rest =>
      have hrest : rest.length ≤ n := by
        simp only [List.length_cons] at hl
        omega
      cases ha : isAlnum c with
      | true =>
        have hws : isJsSpace c = false := isJsSpace_eq_false_of_isAlnum ha
        have hh : isHyphen c = false := by
          have := ne_hyphen_of_isAlnum ha
          simp [isHyphen, this]
        rw [dropTrail_cons_of_neg isJsSpace hws rest,
          collapseRuns_cons_alnum ha, collapseRuns_cons_alnum ha,
          dropTrail_cons_of_neg isHyphen hh, dropTrail_cons_of_neg isHyphen hh,
          ih rest hrest]
      | false =>
        by_cases hcase : isJsSpace c = true ∧ dropTrail isJsSpace rest = []
        · obtain ⟨hws, hnil⟩ := hcase
          rw [dropTrail_cons_of_nil isJsSpace hws hnil,
            collapseRuns_cons_nonalnum rest c ha]
          have hallws : ∀ x ∈ rest, isJsSpace x = true :=
            (dropTrail_eq_nil_iff isJsSpace rest).mp hnil
          have hdw : rest.dropWhile nonAlnum = [] := by
            rw [List.dropWhile_eq_nil_iff]
            intro x hx
            simp [nonAlnum, isAlnum_eq_false_of_isJsSpace (hallws x hx)]
          rw [hdw]
          rw [dropTrail_cons_of_nil isHyphen (by decide)
            (by unfold dropTrail; rfl)]
          rfl
        · have hcons : dropTrail isJsSpace (c :: rest) =
              c :: dropTrail isJsSpace rest := by
            by_cases hws : isJsSpace c = true
            · have hne : dropTrail isJsSpace rest ≠ [] := by
                intro hh
                exact hcase ⟨hws, hh⟩
              exact dropTrail_cons_of_ne isJsSpace c hne
            · have hws' : isJsSpace c = false := by
                cases hww : isJsSpace c with
                | false => rfl
                | true => exact absurd hww hws
              exact dropTrail_cons_of_neg isJsSpace hws' rest
          rw [hcons, collapseRuns_cons_nonalnum _ c ha,
            collapseRuns_cons_nonalnum rest c ha]
          refine dropTrail_cons_congr isHyphen '-' ?_
          cases hd : rest.dropWhile nonAlnum with
          | nil =>
            have hall : ∀ x ∈ rest, nonAlnum x = true :=
              List.dropWhile_eq_nil_iff.mp hd
            have hLHS : (dropTrail isJsSpace rest).dropWhile nonAlnum = [] := by
              rw [List.dropWhile_eq_nil_iff]
              intro x hx
              exact hall x (mem_of_dropTrail hx)
            rw [hLHS]
          | cons e d₂ =>
            have he : nonAlnum e = false := by
              have hh := List.head?_dropWhile_not nonAlnum rest
              rw [hd] at hh
              simpa using hh
            have hea : isAlnum e = true := by
              cases hee : isAlnum e with
              | true => rfl
              | false =>
                rw [nonAlnum, hee] at he
                simp at he
            have hescape : isJsSpace e = false := isJsSpace_eq_false_of_isAlnum hea
            have htd : dropTrail isJsSpace (rest.dropWhile nonAlnum) ≠ [] := by
              rw [hd]
              intro hh
              have h₁ := (dropTrail_eq_nil_iff isJsSpace (e :: d₂)).mp hh e
                (by simp)
              rw [hescape] at h₁
              simp at h₁
            have htrail : dropTrail isJsSpace rest =
                rest.takeWhile nonAlnum ++
                  dropTrail isJsSpace (rest.dropWhile nonAlnum) := by
              conv_lhs => rw [← List.takeWhile_append_dropWhile
                (p := nonAlnum) (l := rest)]
              exact dropTrail_append isJsSpace _ _ htd
            have htw : (rest.takeWhile nonAlnum).dropWhile nonAlnum = [] := by
              rw [List.dropWhile_eq_nil_iff]
              intro x hx
              exact List.mem_takeWhile_imp hx
            have hdtd : dropTrail isJsSpace (rest.dropWhile nonAlnum) =
                e :: dropTrail isJsSpace d₂ := by
              rw [hd]
              exact dropTrail_cons_of_neg isJsSpace hescape d₂
            have hlen : (e :: d₂).length ≤ n := by
              have h₁ : (rest.dropWhile nonAlnum).length ≤ rest.length :=
                (List.dropWhile_sublist nonAlnum).length_le
              rw [hd] at h₁
              simp only [List.length_cons] at h₁ ⊢
              omega
            rw [htrail, dropWhile_append_nil nonAlnum _ _ htw, hdtd,
              List.dropWhile_cons, he]
            simp only [Bool.false_eq_true, if_false]
            rw [← dropTrail_cons_of_neg isJsSpace hescape d₂]
            exact ih (e :: d₂) hlen

/-- The source slug (with its `trim()`) and the specification's algorithm
(without it) agree on every input: the trimmed white space is non-alphanumeric,
so it only feeds edge hyphens that the final strip removes anyway. -/
theorem slugChars_eq_slugSpecChars (l : List Char) :
    slugChars l = slugSpecChars l := by
  unfold slugChars slugSpecChars jsTrim stripEdgeHyphens
  rw [← dropWhile_dropTrail isHyphen
    (collapseRuns (dropTrail isJsSpace ((l.map jsLower).dropWhile isJsSpace)))]
  rw [← dropWhile_dropTrail isHyphen (collapseRuns (l.map jsLower))]
  rw [dropTrail_collapse_trim ((l.map jsLower).dropWhile isJsSpace).length _
    (le_refl _)]
  rw [dropWhile_dropTrail isHyphen, dropWhile_dropTrail isHyphen]
  rw [dropWhile_hyphen_collapse_dropWhile_space (l.map jsLower)]

/-- C7: on every non-empty listing name that does not strip to nothing, the
mapper returns exactly the specification's algorithm — lower-case, collapse
every maximal run outside `[a-z0-9]` to a single hyphen, strip edge hyphens
(`slugSpecChars`); the source's intermediate `trim()` never changes the
result.  The documented example holds, and the function is deterministic (a
pure function of its argument). -/
theorem mapListing_algorithm_spec :
    (∀ s : String, s ≠ "" → String.mk (slugSpecChars s.data) ≠ "" →
      mapListingToPropertyId s =
        Except.ok (String.mk (slugSpecChars s.data))) ∧
    mapListingToPropertyId "2B N1 A - 29 Shoreditch Heights" =
      Except.ok "2b-n1-a-29-shoreditch-heights" ∧
    (∀ s : String, mapListingToPropertyId s = mapListingToPropertyId s) := by
  refine ⟨?_, by rfl, fun s => rfl⟩
  intro s hs _
  unfold mapListingToPropertyId
  rw [if_neg hs, slugChars_eq_slugSpecChars]

/-- Witness for C7: the general algorithm equation applied at a concrete
name. -/
theorem mapListing_algorithm_spec_witness :
    mapListingToPropertyId "a b" =
      Except.ok (String.mk (slugSpecChars "a b".data)) :=
  mapListing_algorithm_spec.1 "a b" (by decide) (by decide)

end StayReviewHub
